import Mathlib

/-
Verification of the KiCad schematic editing helpers.

The development is a shallow embedding of src/electrical/kicad_utils.py and
src/electrical/schematic_editor.py.  Coordinates, which the source holds as
Python floats, are modelled as rationals; uuid generation, which the source
draws from uuid.uuid4, is nondeterministic and is modelled by a fixed empty
string, since no verified property depends on uuid values.  Where a source
method is only a stub (the net map, pin lists and the pin resolver), the
corresponding definitions are modelled from the specification and say so in
their doc comments.
-/

/-- Embeds kiutils Position as used by the source: X and Y coordinates and a
rotation angle in degrees. -/
structure SPos where
  x : ℚ
  y : ℚ
  angle : ℚ
deriving DecidableEq, Repr

/-- Embeds a symbol property: a key and value pair, as in kiutils Property. -/
structure SProperty where
  key : String
  value : String
deriving DecidableEq, Repr

/-- Embeds kiutils SchematicSymbol as the source uses it: library identifier,
position, unit number and the property list that carries the reference
designator. -/
structure SSymbol where
  libraryIdentifier : String
  position : SPos
  unit : Nat
  properties : List SProperty
deriving DecidableEq, Repr

/-- Embeds kiutils DrawnWire as built by kicad_utils add_wire: an ordered list
of points. -/
structure SWire where
  points : List SPos
deriving DecidableEq, Repr

/-- Embeds kiutils Junction: a position and a diameter. -/
structure SJunction where
  position : SPos
  diameter : ℚ
deriving DecidableEq, Repr

/-- Embeds kiutils Label and GlobalLabel: text and a position. -/
structure SLabel where
  text : String
  position : SPos
deriving DecidableEq, Repr

/-- Embeds the kiutils Schematic document as the source touches it: the
collections of symbols, wires, junctions, local labels and global labels. -/
structure Schematic where
  schematicSymbols : List SSymbol
  wires : List SWire
  junctions : List SJunction
  labels : List SLabel
  globalLabels : List SLabel
deriving DecidableEq, Repr

/-- Embeds the matching test inside kicad_utils find_symbol: a symbol matches
a reference designator when some property has key Reference and value equal to
the designator.  The hasattr guard of the source always succeeds in this model
because every symbol carries a property list. -/
def symMatches (ref : String) (s : SSymbol) : Bool :=
  s.properties.any (fun p => p.key == "Reference" && p.value == ref)

/-- Embeds kicad_utils SchematicEditor.find_symbol: the first symbol of the
document whose properties contain a Reference property with the requested
value, and none when no symbol matches. -/
def find_symbol (sch : Schematic) (ref : String) : Option SSymbol :=
  sch.schematicSymbols.find? (symMatches ref)

/-- The position update performed by kicad_utils move_symbol on the symbol it
found: the X and Y coordinates are overwritten and every other field, the
angle included, is kept. -/
def movePos (x y : ℚ) (s : SSymbol) : SSymbol :=
  { s with position := { s.position with x := x, y := y } }

/-- The effect of the mutation in kicad_utils move_symbol on the symbol list:
the Python code mutates the object returned by find_symbol, which is the first
matching element of the list; all other elements are untouched. -/
def moveFirst (ref : String) (x y : ℚ) : List SSymbol → List SSymbol
  | [] => []
  | s :: rest =>
    if symMatches ref s then movePos x y s :: rest else s :: moveFirst ref x y rest

/-- Embeds kicad_utils SchematicEditor.move_symbol: looks the symbol up by
reference and, when found, sets its position to the given coordinates; when no
symbol matches, the document is returned unchanged and no error is raised
(the embedding is a total function, as the source method cannot raise).  The
Python method returns self, which this state passing model renders by
returning the updated document. -/
def move_symbol (sch : Schematic) (ref : String) (x y : ℚ) : Schematic :=
  { sch with schematicSymbols := moveFirst ref x y sch.schematicSymbols }

/-- The failure kinds of the editing operations.  invalidWireSpec stands for
the ValueError raised by kicad_utils add_wire, which the specification names
InvalidWireSpec; componentNotFound and pinNotFound are the failure kinds of
the pin resolver of the specification. -/
inductive EditError where
  | invalidWireSpec
  | componentNotFound
  | pinNotFound
deriving DecidableEq, Repr

/-- Embeds kicad_utils SchematicEditor.add_wire: raises when fewer than two
points are given, leaving the document untouched, and otherwise appends one
wire holding exactly the given points.  The raised ValueError is rendered as
an error value next to the unchanged document. -/
def add_wire (sch : Schematic) (points : List (ℚ × ℚ)) :
    Schematic × Except EditError SWire :=
  if points.length < 2 then (sch, Except.error EditError.invalidWireSpec)
  else
    let w : SWire := { points := points.map (fun q => { x := q.1, y := q.2, angle := 0 }) }
    ({ sch with wires := sch.wires ++ [w] }, Except.ok w)

lemma moveFirst_of_find_none (ref : String) (x y : ℚ) :
    ∀ l : List SSymbol, l.find? (symMatches ref) = none → moveFirst ref x y l = l := by
  intro l hl
  induction l with
  | nil => rfl
  | cons s rest ih =>
    rw [List.find?_cons] at hl
    cases hs : symMatches ref s with
    | true => rw [hs] at hl; exact absurd hl (by simp)
    | false =>
      rw [hs] at hl
      simp only [moveFirst, hs, if_neg Bool.false_ne_true, ih hl]

lemma moveFirst_of_find_some (ref : String) (x y : ℚ) :
    ∀ l : List SSymbol, ∀ s : SSymbol, l.find? (symMatches ref) = some s →
      ∃ l1 l2, l = l1 ++ s :: l2 ∧ (∀ t ∈ l1, symMatches ref t = false) ∧
        moveFirst ref x y l = l1 ++ movePos x y s :: l2 := by
  intro l
  induction l with
  | nil => intro s hs; simp at hs
  | cons a rest ih =>
    intro s hs
    rw [List.find?_cons] at hs
    cases ha : symMatches ref a with
    | true =>
      rw [ha] at hs
      simp only [Option.some.injEq] at hs
      subst hs
      exact ⟨[], rest, by simp, by simp, by simp [moveFirst, ha]⟩
    | false =>
      rw [ha] at hs
      obtain ⟨l1, l2, hsplit, hfail, hmove⟩ := ih s hs
      refine ⟨a :: l1, l2, by simp [hsplit], ?_, ?_⟩
      · intro t ht
        rcases List.mem_cons.mp ht with h | h
        · subst h; exact ha
        · exact hfail t h
      · simp [moveFirst, ha, hmove]

/-- Claim C10: for a reference that matches no symbol, move_symbol raises no
error and leaves the whole document unchanged; the wire, junction and label
collections are unchanged in every case; and when the reference matches, the
first matching symbol has its position set to the given coordinates while the
symbols before it all fail the match and the symbols after it are untouched. -/
theorem c10_move_symbol_spec (sch : Schematic) (ref : String) (x y : ℚ) :
    (find_symbol sch ref = none → move_symbol sch ref x y = sch) ∧
    (move_symbol sch ref x y).wires = sch.wires ∧
    (move_symbol sch ref x y).junctions = sch.junctions ∧
    (move_symbol sch ref x y).labels = sch.labels ∧
    (move_symbol sch ref x y).globalLabels = sch.globalLabels ∧
    (∀ s, find_symbol sch ref = some s →
      ∃ l1 l2, sch.schematicSymbols = l1 ++ s :: l2 ∧
        (∀ t ∈ l1, symMatches ref t = false) ∧
        (move_symbol sch ref x y).schematicSymbols = l1 ++ movePos x y s :: l2) := by
  refine ⟨?_, rfl, rfl, rfl, rfl, ?_⟩
  · intro h
    have := moveFirst_of_find_none ref x y sch.schematicSymbols h
    simp [move_symbol, this]
  · intro s hs
    exact moveFirst_of_find_some ref x y sch.schematicSymbols s hs

/-- A concrete two symbol document used by the witnesses. -/
def symR1 : SSymbol :=
  { libraryIdentifier := "Device:R"
    position := { x := 10, y := 20, angle := 0 }
    unit := 1
    properties := [{ key := "Reference", value := "R1" }] }

/-- A concrete LED symbol used by the witnesses. -/
def symD1 : SSymbol :=
  { libraryIdentifier := "Device:LED"
    position := { x := 30, y := 20, angle := 90 }
    unit := 1
    properties := [{ key := "Reference", value := "D1" }] }

/-- A concrete document holding symbols R1 and D1 and nothing else. -/
def sch1 : Schematic :=
  { schematicSymbols := [symR1, symD1]
    wires := []
    junctions := []
    labels := []
    globalLabels := [] }

/-- Witness for claim C10: the concrete document sch1 has no symbol R9, and
moving R9 leaves the document unchanged. -/
theorem c10_move_symbol_witness :
    find_symbol sch1 "R9" = none ∧ move_symbol sch1 "R9" 3 4 = sch1 :=
  ⟨by decide, (c10_move_symbol_spec sch1 "R9" 3 4).1 (by decide)⟩

/-- Claim C5: add_wire fails with the InvalidWireSpec error exactly when fewer
than two points are given, the wire collection is unchanged on failure, and
for at least two points it appends exactly one wire whose point sequence
equals the given list. -/
theorem c5_add_wire_spec (sch : Schematic) (points : List (ℚ × ℚ)) :
    ((add_wire sch points).2 = Except.error EditError.invalidWireSpec ↔ points.length < 2) ∧
    (points.length < 2 → (add_wire sch points).1 = sch) ∧
    (2 ≤ points.length → ∃ w : SWire,
      add_wire sch points = ({ sch with wires := sch.wires ++ [w] }, Except.ok w) ∧
      w.points.map (fun p => (p.x, p.y)) = points) := by
  by_cases h : points.length < 2
  · refine ⟨by simp [add_wire, h], fun _ => by simp [add_wire, h], fun h2 => absurd h (by omega)⟩
  · refine ⟨by simp [add_wire, h], fun hlt => absurd hlt h, fun _ => ?_⟩
    refine ⟨{ points := points.map (fun q => { x := q.1, y := q.2, angle := 0 }) }, ?_, ?_⟩
    · simp [add_wire, h]
    · rw [List.map_map]
      exact List.map_id points

/-- Witness for claim C5: the empty point list is too short and leaves the
concrete document unchanged, discharging the hypothesis of the failure part of
the add_wire theorem at a concrete input. -/
theorem c5_add_wire_witness :
    ([] : List (ℚ × ℚ)).length < 2 ∧ (add_wire sch1 []).1 = sch1 :=
  ⟨by decide, (c5_add_wire_spec sch1 []).2.1 (by decide)⟩

/-- Association list lookup: the value of the first entry whose key equals the
requested key.  Used for the pin library and for the net assignment of the
modelled connectivity resolver. -/
def alookup {α β : Type} [DecidableEq α] : List (α × β) → α → Option β
  | [], _ => none
  | e :: rest, k => if e.1 = k then some e.2 else alookup rest k

/-- Modelled from the spec: the rotation transform that resolve_pin applies to
the local offset of a pin, for the quarter turn orientations that add_symbol
documents (0, 90, 180 and 270 degrees); any other angle is treated as no
rotation.  The source never implements this transform, since
SchematicEditor._get_symbol_pins is a stub returning the empty list. -/
def rotateOffset (angle : ℚ) (off : ℚ × ℚ) : ℚ × ℚ :=
  if angle = 90 then (-off.2, off.1)
  else if angle = 180 then (-off.1, -off.2)
  else if angle = 270 then (off.2, -off.1)
  else off

/-- A pin library: for each library identifier, the list of pin names with
their local offsets relative to the component origin.  Modelled from the spec,
which places pin data in the library definition of the symbol; the source
acknowledges this in the stub comment of _get_symbol_pins. -/
abbrev PinLib := List (String × List (String × ℚ × ℚ))

/-- Modelled from the spec: resolve_pin, which is absent from the source (only
the component lookup exists, as find_symbol, and the per symbol pin lookup is
the stub _get_symbol_pins).  Looks the component up by reference, failing with
componentNotFound when absent; looks the pin up by name in the library defined
pin list of that component, failing with pinNotFound when absent; and returns
the component position plus the rotated local offset otherwise. -/
def resolve_pin (lib : PinLib) (sch : Schematic) (ref pin : String) :
    Except EditError (ℚ × ℚ) :=
  match find_symbol sch ref with
  | none => Except.error EditError.componentNotFound
  | some s =>
    match alookup ((alookup lib s.libraryIdentifier).getD []) pin with
    | none => Except.error EditError.pinNotFound
    | some off =>
      Except.ok (s.position.x + (rotateOffset s.position.angle off).1,
                 s.position.y + (rotateOffset s.position.angle off).2)

/-- Claim C1: resolve_pin fails with componentNotFound exactly when no
component with the reference exists, fails with pinNotFound when the component
exists but its library defined pin list declares no pin of that name, and
otherwise returns the component position plus the rotation transform applied
to the local offset of the pin. -/
theorem c1_resolve_pin_spec (lib : PinLib) (sch : Schematic) (ref pin : String) :
    (find_symbol sch ref = none →
      resolve_pin lib sch ref pin = Except.error EditError.componentNotFound) ∧
    (∀ s, find_symbol sch ref = some s →
      alookup ((alookup lib s.libraryIdentifier).getD []) pin = none →
      resolve_pin lib sch ref pin = Except.error EditError.pinNotFound) ∧
    (∀ s off, find_symbol sch ref = some s →
      alookup ((alookup lib s.libraryIdentifier).getD []) pin = some off →
      resolve_pin lib sch ref pin =
        Except.ok (s.position.x + (rotateOffset s.position.angle off).1,
                   s.position.y + (rotateOffset s.position.angle off).2)) := by
  refine ⟨fun h => ?_, fun s hs hp => ?_, fun s off hs hp => ?_⟩
  · simp [resolve_pin, h]
  · simp [resolve_pin, hs, hp]
  · simp [resolve_pin, hs, hp]

/-- A concrete pin library for the witnesses: a resistor with pins 1 and 2 and
an LED with pins A and K. -/
def lib1 : PinLib :=
  [ ("Device:R", [("1", (0, -3)), ("2", (0, 3))]),
    ("Device:LED", [("A", (-2, 0)), ("K", (2, 0))]) ]

/-- Witness for claim C1: on the concrete document sch1 the resolver fails
with componentNotFound for the absent reference R9, fails with pinNotFound for
the absent pin 3 of R1, and succeeds on pin 2 of R1 with the transformed
position. -/
theorem c1_resolve_pin_witness :
    (find_symbol sch1 "R9" = none ∧
      resolve_pin lib1 sch1 "R9" "1" = Except.error EditError.componentNotFound) ∧
    resolve_pin lib1 sch1 "R1" "3" = Except.error EditError.pinNotFound ∧
    resolve_pin lib1 sch1 "R1" "2" =
      Except.ok (symR1.position.x + (rotateOffset symR1.position.angle (0, 3)).1,
                 symR1.position.y + (rotateOffset symR1.position.angle (0, 3)).2) :=
  ⟨⟨by decide, (c1_resolve_pin_spec lib1 sch1 "R9" "1").1 (by decide)⟩,
   (c1_resolve_pin_spec lib1 sch1 "R1" "3").2.1 symR1 (by decide) (by decide),
   (c1_resolve_pin_spec lib1 sch1 "R1" "2").2.2 symR1 (0, 3) (by decide) (by decide)⟩

/-- A pin endpoint, addressed as a reference designator and pin name pair, the
addressing scheme of the symbolic connection API. -/
abbrev Pin := String × String

/-- Modelled from the spec: the state of the connectivity resolver, which the
source only gestures at (SchematicEditor._build_net_map sets an empty
dictionary and connect_pins never touches it).  A net is a set of pins
carrying a synthesized identifier; a pin belongs to at most one net, so the
state is an assignment from pins to net identifiers together with a counter
from which fresh identifiers are drawn. -/
structure NetState where
  counter : Nat
  assign : List (Pin × Nat)
deriving DecidableEq, Repr

/-- Modelled from the spec: resolve_net returns the identifier of the net a
pin belongs to, and none for a pin that is in no net. -/
def resolve_net (s : NetState) (p : Pin) : Option Nat :=
  alookup s.assign p

/-- Relabels every entry carrying net identifier j to identifier i; this is
the union step of the resolver, which merges the net j into the net i. -/
def relabelNet (l : List (Pin × Nat)) (j i : Nat) : List (Pin × Nat) :=
  l.map (fun e => (e.1, if e.2 = j then i else e.2))

/-- Modelled from the spec: connect performs find and union over the pin to
net assignment.  When both endpoints already share a net nothing changes; when
they lie in two different nets the second net is merged into the first; when
only one endpoint has a net the other joins it; and when neither has a net a
fresh net identifier is drawn from the counter for both.  Net names are not
modelled, as every identifier here is synthesized, so the ConflictingNetNames
policy of the specification never fires. -/
def connect (s : NetState) (a b : Pin) : NetState :=
  match alookup s.assign a, alookup s.assign b with
  | some i, some j =>
    if i = j then s else { s with assign := relabelNet s.assign j i }
  | some i, none => { s with assign := (b, i) :: s.assign }
  | none, some j => { s with assign := (a, j) :: s.assign }
  | none, none =>
    { counter := s.counter + 1,
      assign := if a = b then (a, s.counter) :: s.assign
                else (a, s.counter) :: (b, s.counter) :: s.assign }

lemma alookup_relabelNet (l : List (Pin × Nat)) (j i : Nat) (p : Pin) :
    alookup (relabelNet l j i) p =
      (alookup l p).map (fun v => if v = j then i else v) := by
  induction l with
  | nil => rfl
  | cons e rest ih =>
    by_cases h : e.1 = p
    · simp [relabelNet, alookup, h]
    · simp only [relabelNet, List.map_cons, alookup, h, if_false] at *
      exact ih

lemma alookup_cons_ne {β : Type} (k p : Pin) (v : β) (l : List (Pin × β))
    (h : k ≠ p) : alookup ((k, v) :: l) p = alookup l p := by
  simp [alookup, h]

lemma ne_of_alookup_some_none {β : Type} (l : List (Pin × β)) (p q : Pin) (v : β)
    (hp : alookup l p = some v) (hq : alookup l q = none) : p ≠ q := by
  intro h
  subst h
  rw [hp] at hq
  exact Option.some_ne_none v hq

/-- After a connect call, both endpoints resolve to one and the same net
identifier. -/
lemma connect_joins (s : NetState) (a b : Pin) :
    ∃ k, resolve_net (connect s a b) a = some k ∧
         resolve_net (connect s a b) b = some k := by
  rcases ha : alookup s.assign a with _ | i <;> rcases hb : alookup s.assign b with _ | j
  · by_cases hab : a = b
    · subst hab
      exact ⟨s.counter, by simp [connect, resolve_net, ha, alookup],
             by simp [connect, resolve_net, ha, alookup]⟩
    · refine ⟨s.counter, ?_, ?_⟩
      · simp [connect, resolve_net, ha, hb, hab, alookup]
      · have hba : b ≠ a := fun h => hab h.symm
        simp [connect, resolve_net, ha, hb, hab, alookup, Ne.symm hab]
  · refine ⟨j, ?_, ?_⟩
    · simp [connect, resolve_net, ha, hb, alookup]
    · have hba : b ≠ a := ne_of_alookup_some_none s.assign b a j hb ha
      rw [connect, ha, hb]
      show alookup ((a, j) :: s.assign) b = some j
      rw [alookup_cons_ne a b j s.assign (fun h => hba h.symm), hb]
  · refine ⟨i, ?_, ?_⟩
    · have hab : a ≠ b := ne_of_alookup_some_none s.assign a b i ha hb
      rw [connect, ha, hb]
      show alookup ((b, i) :: s.assign) a = some i
      rw [alookup_cons_ne b a i s.assign (fun h => hab h.symm), ha]
    · simp [connect, resolve_net, ha, hb, alookup]
  · by_cases hij : i = j
    · subst hij
      exact ⟨i, by simp [connect, resolve_net, ha, hb], by simp [connect, resolve_net, ha, hb]⟩
    · refine ⟨i, ?_, ?_⟩
      · simp only [connect, ha, hb]
        rw [if_neg hij]
        show alookup (relabelNet s.assign j i) a = some i
        rw [alookup_relabelNet, ha]
        simp [hij]
      · simp only [connect, ha, hb]
        rw [if_neg hij]
        show alookup (relabelNet s.assign j i) b = some i
        rw [alookup_relabelNet, hb]
        simp

/-- A connect call preserves the relation of two pins already sharing a net:
they still share a net afterwards. -/
lemma connect_preserves (s : NetState) (a b x y : Pin) (i : Nat)
    (hx : resolve_net s x = some i) (hy : resolve_net s y = some i) :
    ∃ k, resolve_net (connect s a b) x = some k ∧
         resolve_net (connect s a b) y = some k := by
  unfold resolve_net at hx hy
  rcases ha : alookup s.assign a with _ | ia <;> rcases hb : alookup s.assign b with _ | jb
  · have hxa : a ≠ x := fun h => ne_of_alookup_some_none s.assign x a i hx ha h.symm
    have hya : a ≠ y := fun h => ne_of_alookup_some_none s.assign y a i hy ha h.symm
    have hxb : b ≠ x := fun h => ne_of_alookup_some_none s.assign x b i hx hb h.symm
    have hyb : b ≠ y := fun h => ne_of_alookup_some_none s.assign y b i hy hb h.symm
    refine ⟨i, ?_, ?_⟩ <;> rw [connect, ha, hb]
    · by_cases hab : a = b
      · subst hab
        show alookup (if a = a then (a, s.counter) :: s.assign else _) x = some i
        rw [if_pos rfl, alookup_cons_ne a x s.counter s.assign hxa, hx]
      · show alookup (if a = b then _ else (a, s.counter) :: (b, s.counter) :: s.assign) x = some i
        rw [if_neg hab, alookup_cons_ne a x s.counter _ hxa,
            alookup_cons_ne b x s.counter s.assign hxb, hx]
    · by_cases hab : a = b
      · subst hab
        show alookup (if a = a then (a, s.counter) :: s.assign else _) y = some i
        rw [if_pos rfl, alookup_cons_ne a y s.counter s.assign hya, hy]
      · show alookup (if a = b then _ else (a, s.counter) :: (b, s.counter) :: s.assign) y = some i
        rw [if_neg hab, alookup_cons_ne a y s.counter _ hya,
            alookup_cons_ne b y s.counter s.assign hyb, hy]
  · have hxa : a ≠ x := fun h => ne_of_alookup_some_none s.assign x a i hx ha h.symm
    have hya : a ≠ y := fun h => ne_of_alookup_some_none s.assign y a i hy ha h.symm
    refine ⟨i, ?_, ?_⟩ <;> rw [connect, ha, hb]
    · show alookup ((a, jb) :: s.assign) x = some i
      rw [alookup_cons_ne a x jb s.assign hxa, hx]
    · show alookup ((a, jb) :: s.assign) y = some i
      rw [alookup_cons_ne a y jb s.assign hya, hy]
  · have hxb : b ≠ x := fun h => ne_of_alookup_some_none s.assign x b i hx hb h.symm
    have hyb : b ≠ y := fun h => ne_of_alookup_some_none s.assign y b i hy hb h.symm
    refine ⟨i, ?_, ?_⟩ <;> rw [connect, ha, hb]
    · show alookup ((b, ia) :: s.assign) x = some i
      rw [alookup_cons_ne b x ia s.assign hxb, hx]
    · show alookup ((b, ia) :: s.assign) y = some i
      rw [alookup_cons_ne b y ia s.assign hyb, hy]
  · by_cases hij : ia = jb
    · subst hij
      refine ⟨i, ?_, ?_⟩ <;> simp [connect, ha, hb, resolve_net, hx, hy]
    · refine ⟨if i = jb then ia else i, ?_, ?_⟩ <;> simp only [connect, ha, hb] <;>
        rw [if_neg hij]
      · show alookup (relabelNet s.assign jb ia) x = _
        rw [alookup_relabelNet, hx]
        rfl
      · show alookup (relabelNet s.assign jb ia) y = _
        rw [alookup_relabelNet, hy]
        rfl

/-- Claim C2: connectivity is transitively unioned.  After connecting A to B
and then B to C, the net of A and the net of C resolve to one and the same net
identifier. -/
theorem c2_connect_union (s : NetState) (A B C : Pin) :
    resolve_net (connect (connect s A B) B C) A =
      resolve_net (connect (connect s A B) B C) C ∧
    (resolve_net (connect (connect s A B) B C) A).isSome := by
  obtain ⟨i, hA, hB⟩ := connect_joins s A B
  obtain ⟨k, hA2, hB2⟩ := connect_preserves (connect s A B) B C A B i hA hB
  obtain ⟨m, hB3, hC3⟩ := connect_joins (connect s A B) B C
  have hkm : k = m := Option.some.inj (hB2.symm.trans hB3)
  subst hkm
  exact ⟨hA2.trans hC3.symm, by rw [hA2]; rfl⟩

/-- The number of net memberships a pin holds: the number of assignment
entries keyed by the pin. -/
def membershipCount (s : NetState) (p : Pin) : Nat :=
  (s.assign.filter (fun e => decide (e.1 = p))).length

/-- The invariant of the resolver state: each pin appears at most once in the
assignment, so a pin belongs to at most one net. -/
def pinsNodup (s : NetState) : Prop :=
  (s.assign.map Prod.fst).Nodup

lemma alookup_eq_none_iff {β : Type} (l : List (Pin × β)) (p : Pin) :
    alookup l p = none ↔ p ∉ l.map Prod.fst := by
  induction l with
  | nil => simp [alookup]
  | cons e rest ih =>
    rw [List.map_cons, List.mem_cons]
    by_cases h : e.1 = p
    · simp [alookup, h]
    · rw [alookup, if_neg h, ih]
      constructor
      · intro hn hc
        rcases hc with hc | hc
        · exact h hc.symm
        · exact hn hc
      · intro hn hc
        exact hn (Or.inr hc)

lemma count_eq_zero_of_not_mem {β : Type} (l : List (Pin × β)) (p : Pin)
    (h : p ∉ l.map Prod.fst) :
    (l.filter (fun e => decide (e.1 = p))).length = 0 := by
  rw [List.length_eq_zero]
  rw [List.filter_eq_nil_iff]
  intro e he
  simp only [decide_eq_true_eq]
  intro hc
  exact h (List.mem_map.mpr ⟨e, he, hc⟩)

lemma count_eq_one_of_nodup {β : Type} (l : List (Pin × β)) (p : Pin) (v : β)
    (hn : (l.map Prod.fst).Nodup) (hl : alookup l p = some v) :
    (l.filter (fun e => decide (e.1 = p))).length = 1 := by
  induction l with
  | nil => simp [alookup] at hl
  | cons e rest ih =>
    rw [List.map_cons, List.nodup_cons] at hn
    by_cases h : e.1 = p
    · rw [List.filter_cons_of_pos (by simp [h])]
      rw [List.length_cons]
      have : p ∉ rest.map Prod.fst := h ▸ hn.1
      rw [count_eq_zero_of_not_mem rest p this]
    · rw [List.filter_cons_of_neg (by simp [h])]
      rw [alookup, if_neg h] at hl
      exact ih hn.2 hl

lemma relabelNet_keys (l : List (Pin × Nat)) (j i : Nat) :
    (relabelNet l j i).map Prod.fst = l.map Prod.fst := by
  simp [relabelNet, List.map_map]

/-- A connect call preserves the at most one net per pin invariant. -/
lemma connect_pinsNodup (s : NetState) (a b : Pin) (h : pinsNodup s) :
    pinsNodup (connect s a b) := by
  unfold pinsNodup at *
  rcases ha : alookup s.assign a with _ | ia <;> rcases hb : alookup s.assign b with _ | jb
  · have hma : a ∉ s.assign.map Prod.fst := (alookup_eq_none_iff s.assign a).mp ha
    have hmb : b ∉ s.assign.map Prod.fst := (alookup_eq_none_iff s.assign b).mp hb
    by_cases hab : a = b
    · subst hab
      simp only [connect, ha, hb, if_pos rfl]
      simpa using List.Nodup.cons hma h
    · simp only [connect, ha, hb, if_neg hab]
      rw [List.map_cons, List.map_cons]
      refine List.Nodup.cons ?_ (List.Nodup.cons hmb h)
      intro hc
      rcases List.mem_cons.mp hc with hc | hc
      · exact hab hc
      · exact hma hc
  · have hma : a ∉ s.assign.map Prod.fst := (alookup_eq_none_iff s.assign a).mp ha
    simp only [connect, ha, hb]
    rw [List.map_cons]
    exact List.Nodup.cons hma h
  · have hmb : b ∉ s.assign.map Prod.fst := (alookup_eq_none_iff s.assign b).mp hb
    simp only [connect, ha, hb]
    rw [List.map_cons]
    exact List.Nodup.cons hmb h
  · by_cases hij : ia = jb
    · subst hij
      simpa [connect, ha, hb] using h
    · simp only [connect, ha, hb]
      rw [if_neg hij]
      show ((relabelNet s.assign jb ia).map Prod.fst).Nodup
      rw [relabelNet_keys]
      exact h

/-- Claim C4: connect is idempotent on net membership.  Connecting the same
two pins a second time returns the state of the first call unchanged, and
after the first call each of the two pins holds exactly one net membership. -/
theorem c4_connect_idempotent (s : NetState) (a b : Pin) (h : pinsNodup s) :
    connect (connect s a b) a b = connect s a b ∧
    membershipCount (connect s a b) a = 1 ∧
    membershipCount (connect s a b) b = 1 := by
  obtain ⟨k, hka, hkb⟩ := connect_joins s a b
  unfold resolve_net at hka hkb
  refine ⟨?_, ?_, ?_⟩
  · set t := connect s a b with ht
    simp only [connect, hka, hkb]
    simp
  · exact count_eq_one_of_nodup (connect s a b).assign a k (connect_pinsNodup s a b h) hka
  · exact count_eq_one_of_nodup (connect s a b).assign b k (connect_pinsNodup s a b h) hkb

instance (s : NetState) : Decidable (pinsNodup s) :=
  List.nodupDecidable (s.assign.map Prod.fst)

/-- The empty resolver state of a fresh editing session. -/
def netEmpty : NetState := { counter := 0, assign := [] }

/-- Witness for claim C4: the empty session state satisfies the invariant, and
connecting pin 2 of R1 to pin A of D1 twice is idempotent with exactly one
membership for each pin. -/
theorem c4_connect_idempotent_witness :
    pinsNodup netEmpty ∧
    (connect (connect netEmpty ("R1", "2") ("D1", "A")) ("R1", "2") ("D1", "A") =
        connect netEmpty ("R1", "2") ("D1", "A") ∧
      membershipCount (connect netEmpty ("R1", "2") ("D1", "A")) ("R1", "2") = 1 ∧
      membershipCount (connect netEmpty ("R1", "2") ("D1", "A")) ("D1", "A") = 1) :=
  ⟨by decide, c4_connect_idempotent netEmpty ("R1", "2") ("D1", "A") (by decide)⟩

/-- Modelled from the spec: find_unconnected_pins, whose source counterpart
list_unconnected only prints a heading.  For the declared pins of the document
(every pin of every component, which the specification keys by reference and
pin name), it returns exactly those that belong to no net, recomputed from the
given resolver state on each call. -/
def find_unconnected_pins (decl : List Pin) (s : NetState) : List Pin :=
  decl.filter (fun p => (resolve_net s p).isNone)

/-- Claim C3: find_unconnected_pins returns exactly the declared pins that are
in no net; it returns the empty sequence when every declared pin has been
connected at least once; and it is recomputed from the current state on each
call, so the two pins of a new connect call never appear in the result
computed from the new state. -/
theorem c3_find_unconnected_spec (decl : List Pin) (s : NetState) :
    (∀ p, p ∈ find_unconnected_pins decl s ↔ p ∈ decl ∧ resolve_net s p = none) ∧
    ((∀ p ∈ decl, (resolve_net s p).isSome) → find_unconnected_pins decl s = []) ∧
    (∀ a b, a ∉ find_unconnected_pins decl (connect s a b) ∧
            b ∉ find_unconnected_pins decl (connect s a b)) := by
  refine ⟨?_, ?_, ?_⟩
  · intro p
    simp [find_unconnected_pins, List.mem_filter, Option.isNone_iff_eq_none]
  · intro h
    rw [find_unconnected_pins, List.filter_eq_nil_iff]
    intro p hp
    have := h p hp
    simp only [Bool.not_eq_true, Option.isNone_eq_false_iff]
    exact this
  · intro a b
    obtain ⟨k, hka, hkb⟩ := connect_joins s a b
    constructor
    · intro hc
      have := (List.mem_filter.mp hc).2
      rw [hka] at this
      simp at this
    · intro hc
      have := (List.mem_filter.mp hc).2
      rw [hkb] at this
      simp at this

/-- Witness for claim C3: the scenario of the specification.  On a document
declaring the pins of R1 and D1, after connecting pin 2 of R1 to pin A of D1
the unconnected pins are exactly pin 1 of R1 and pin K of D1; and once the
remaining two pins are also connected, the result is empty. -/
theorem c3_find_unconnected_witness :
    find_unconnected_pins [("R1", "1"), ("R1", "2"), ("D1", "A"), ("D1", "K")]
        (connect netEmpty ("R1", "2") ("D1", "A")) = [("R1", "1"), ("D1", "K")] ∧
    find_unconnected_pins [("R1", "1"), ("R1", "2"), ("D1", "A"), ("D1", "K")]
        (connect (connect netEmpty ("R1", "2") ("D1", "A")) ("R1", "1") ("D1", "K")) = [] :=
  ⟨by decide,
   (c3_find_unconnected_spec [("R1", "1"), ("R1", "2"), ("D1", "A"), ("D1", "K")]
      (connect (connect netEmpty ("R1", "2") ("D1", "A")) ("R1", "1") ("D1", "K"))).2.1
     (by decide)⟩

/-- Embeds the Python builtin round as used by kicad_utils grid_align: the
nearest integer, with ties broken towards the even integer (the IEEE round
half to even rule that Python applies).  The float arithmetic of the source is
modelled exactly over the rationals. -/
def pythonRound (q : ℚ) : ℤ :=
  if q - ⌊q⌋ < 1/2 then ⌊q⌋
  else if 1/2 < q - ⌊q⌋ then ⌊q⌋ + 1
  else if Even ⌊q⌋ then ⌊q⌋ else ⌊q⌋ + 1

/-- Embeds kicad_utils SchematicEditor.grid_align: rounds the quotient of the
value by the grid spacing and scales back, the default spacing being 2.54
document units. -/
def grid_align (value : ℚ) (grid : ℚ := 254/100) : ℚ :=
  pythonRound (value / grid) * grid

lemma pythonRound_cases (q : ℚ) :
    pythonRound q = ⌊q⌋ ∨ pythonRound q = ⌊q⌋ + 1 := by
  unfold pythonRound
  split_ifs <;> simp

lemma abs_pythonRound_sub (q : ℚ) : |(pythonRound q : ℚ) - q| ≤ 1/2 := by
  have h0 : (⌊q⌋ : ℚ) ≤ q := Int.floor_le q
  have h1 : q < ⌊q⌋ + 1 := Int.lt_floor_add_one q
  unfold pythonRound
  split_ifs with ha hb hc
  · rw [abs_le]
    constructor <;> linarith
  · push_cast
    rw [abs_le]
    constructor <;> linarith
  · rw [abs_le]
    constructor <;> linarith
  · push_cast
    rw [abs_le]
    constructor <;> linarith

lemma pythonRound_eq_of_abs_lt (q : ℚ) (k : ℤ) (h : |q - k| < 1/2) :
    pythonRound q = k := by
  rw [abs_lt] at h
  rcases le_or_lt (k : ℚ) q with hk | hk
  · have hfl : ⌊q⌋ = k := by
      rw [Int.floor_eq_iff]
      exact ⟨hk, by linarith⟩
    unfold pythonRound
    rw [hfl, if_pos (by linarith)]
  · have hfl : ⌊q⌋ = k - 1 := by
      rw [Int.floor_eq_iff]
      push_cast
      constructor <;> linarith
    unfold pythonRound
    rw [hfl]
    rw [if_neg (by push_cast; linarith), if_pos (by push_cast; linarith)]
    omega

/-- Claim C6: for a positive grid spacing, grid_align returns a multiple of
the spacing nearest to the value, so any two coordinates lying strictly within
half a grid step of the same grid point compare equal after snapping.  At an
exact half step tie the Python round rule picks the even multiple, which is
still a nearest one. -/
theorem c6_grid_align_spec (v g : ℚ) (hg : 0 < g) :
    (∃ k : ℤ, grid_align v g = k * g) ∧
    (∀ k : ℤ, |grid_align v g - v| ≤ |k * g - v|) ∧
    (∀ w : ℚ, ∀ k : ℤ, |v - k * g| < g/2 → |w - k * g| < g/2 →
      grid_align v g = grid_align w g) := by
  have hgne : g ≠ 0 := ne_of_gt hg
  refine ⟨⟨pythonRound (v / g), rfl⟩, ?_, ?_⟩
  · intro k
    have hR : |(pythonRound (v / g) : ℚ) - v / g| ≤ 1/2 := abs_pythonRound_sub (v / g)
    by_cases hk : k = pythonRound (v / g)
    · subst hk
      exact le_refl _
    · have h1 : (1 : ℚ) ≤ |(k : ℚ) - pythonRound (v / g)| := by
        have h2 : (1 : ℤ) ≤ |k - pythonRound (v / g)| :=
          Int.one_le_abs (sub_ne_zero.mpr hk)
        exact_mod_cast h2
      have hks : 1/2 ≤ |(k : ℚ) - v / g| := by
        have htri : |(k : ℚ) - pythonRound (v / g)| ≤
            |(k : ℚ) - v / g| + |(pythonRound (v / g) : ℚ) - v / g| := by
          have h3 : (k : ℚ) - pythonRound (v / g) =
              ((k : ℚ) - v / g) - ((pythonRound (v / g) : ℚ) - v / g) := by ring
          rw [h3]
          exact abs_sub _ _
        linarith
      have hveq : v = (v / g) * g := by field_simp
      have lhs_eq : |grid_align v g - v| = |(pythonRound (v / g) : ℚ) - v / g| * g := by
        rw [grid_align]
        calc |(pythonRound (v / g) : ℚ) * g - v|
            = |((pythonRound (v / g) : ℚ) - v / g) * g| := by rw [sub_mul]; rw [← hveq]
          _ = |(pythonRound (v / g) : ℚ) - v / g| * |g| := abs_mul _ _
          _ = |(pythonRound (v / g) : ℚ) - v / g| * g := by rw [abs_of_pos hg]
      have rhs_eq : |(k : ℚ) * g - v| = |(k : ℚ) - v / g| * g := by
        calc |(k : ℚ) * g - v|
            = |((k : ℚ) - v / g) * g| := by rw [sub_mul]; rw [← hveq]
          _ = |(k : ℚ) - v / g| * |g| := abs_mul _ _
          _ = |(k : ℚ) - v / g| * g := by rw [abs_of_pos hg]
      rw [lhs_eq, rhs_eq]
      have : |(pythonRound (v / g) : ℚ) - v / g| ≤ |(k : ℚ) - v / g| := by linarith
      exact mul_le_mul_of_nonneg_right this (le_of_lt hg)
  · intro w k hv hw
    have hv2 : |v / g - k| < 1/2 := by
      have heq : v / g - k = (v - k * g) / g := by field_simp; ring
      rw [heq, abs_div, abs_of_pos hg]
      rw [div_lt_iff₀ hg]
      calc |v - k * g| < g / 2 := hv
        _ = 1/2 * g := by ring
    have hw2 : |w / g - k| < 1/2 := by
      have heq : w / g - k = (w - k * g) / g := by field_simp; ring
      rw [heq, abs_div, abs_of_pos hg]
      rw [div_lt_iff₀ hg]
      calc |w - k * g| < g / 2 := hw
        _ = 1/2 * g := by ring
    rw [grid_align, grid_align, pythonRound_eq_of_abs_lt (v / g) k hv2,
        pythonRound_eq_of_abs_lt (w / g) k hw2]

/-- Witness for claim C6: with the default 2.54 spacing, the coordinates 5/2
and 26/10 both lie strictly within half a grid step of the grid point 2.54 and
snap to the same value. -/
theorem c6_grid_align_witness :
    (0 : ℚ) < 254/100 ∧ grid_align (5/2) (254/100) = grid_align (26/10) (254/100) :=
  ⟨by norm_num,
   (c6_grid_align_spec (5/2) (254/100) (by norm_num)).2.2 (26/10) 1
     (by rw [abs_lt]; constructor <;> norm_num)
     (by rw [abs_lt]; constructor <;> norm_num)⟩

/-- The dot character, written by code point to keep character literals out
of pattern positions. -/
def chr46 : Char := Char.ofNat 46

/-- The on-disk state: contents by path.  Serialization is opaque in the
source (kiutils to_file), so the schematic content is modelled as an abstract
string and writing is modelled as storing it at a path. -/
def FS : Type := String → Option String

/-- A single whole file write, the effect of one to_file call. -/
def fsWrite (fs : FS) (p c : String) : FS :=
  fun q => if q = p then some c else fs q

/-- Splits a character list at every dot, keeping empty pieces, exactly as
the Python str.split with a dot separator does; the result is never empty. -/
def splitOnDot : List Char → List (List Char)
  | [] => [[]]
  | c :: rest =>
    if c = chr46 then [] :: splitOnDot rest
    else
      match splitOnDot rest with
      | [] => [[c]]
      | r :: rs => (c :: r) :: rs

/-- Joins character lists with dots, the inverse direction of splitOnDot. -/
def joinDots : List (List Char) → List Char
  | [] => []
  | [x] => x
  | x :: xs => x ++ chr46 :: joinDots xs

/-- Embeds pathlib with_suffix as used by the source on names whose final
component carries the extension: the last dot separated component is dropped
before the new suffix is appended; a name without a dot is kept whole. -/
def withSuffixBase (p : String) : String :=
  let parts := splitOnDot p.data
  if parts.length ≤ 1 then p else { data := joinDots parts.dropLast }

/-- The backup path used by kicad_utils save: with_suffix replaces the
extension by the fixed suffix .bak.kicad_sch, with no counter anywhere. -/
def ku_backup_path (p : String) : String :=
  withSuffixBase p ++ ".bak.kicad_sch"

/-- The backup path used by schematic_editor backup for counter value n:
with_suffix replaces the extension by .bak followed by the counter and
.kicad_sch. -/
def se_backup_path (p : String) (n : Nat) : String :=
  withSuffixBase p ++ ".bak" ++ toString n ++ ".kicad_sch"

/-- The session state of the kicad_utils editor: the document path and the in
memory schematic content. -/
structure KUEditor where
  path : String
  sch : String
deriving DecidableEq, Repr

/-- The session state of the schematic_editor editor: path, in memory content
and the per session backup counter. -/
structure SEEditor where
  path : String
  sch : String
  backup_counter : Nat
deriving DecidableEq, Repr

/-- Embeds kicad_utils SchematicEditor.save: with backup enabled it first
writes the current in memory schematic to the fixed backup path, then writes
the same in memory schematic to the document path.  Note that both writes
serialize the current in memory state; the previous on disk content is never
read back or copied. -/
def ku_save (ed : KUEditor) (backup : Bool) (fs : FS) : FS :=
  let fs1 := if backup then fsWrite fs (ku_backup_path ed.path) ed.sch else fs
  fsWrite fs1 ed.path ed.sch

/-- Embeds schematic_editor SchematicEditor.backup: increments the session
counter and writes the current in memory schematic to the counter bearing
backup path.  This method is not called by schematic_editor save. -/
def se_backup (ed : SEEditor) (fs : FS) : SEEditor × FS :=
  let n := ed.backup_counter + 1
  ({ ed with backup_counter := n }, fsWrite fs (se_backup_path ed.path n) ed.sch)

/-- Embeds schematic_editor SchematicEditor.save: a single direct write of the
in memory schematic to the document path, with no backup step. -/
def se_save (ed : SEEditor) (fs : FS) : FS :=
  fsWrite fs ed.path ed.sch

/-- The sequence of file operations a save performs, for the atomicity claim:
the source calls the external serializer directly on its target paths. -/
inductive FileOp where
  | serializeTo (path : String)
  | tempWrite (path : String)
  | rename (src dst : String)
deriving DecidableEq, Repr

/-- Whether an operation is a rename. -/
def FileOp.isRename : FileOp → Bool
  | FileOp.rename _ _ => true
  | _ => false

/-- Whether an operation is a temporary path write. -/
def FileOp.isTempWrite : FileOp → Bool
  | FileOp.tempWrite _ => true
  | _ => false

/-- The operation trace of kicad_utils save: an optional serializer call on
the backup path followed by a serializer call on the document path itself. -/
def ku_save_trace (ed : KUEditor) (backup : Bool) : List FileOp :=
  (if backup then [FileOp.serializeTo (ku_backup_path ed.path)] else []) ++
    [FileOp.serializeTo ed.path]

/-- The operation trace of schematic_editor save: one serializer call on the
document path. -/
def se_save_trace (ed : SEEditor) : List FileOp :=
  [FileOp.serializeTo ed.path]

/-- The first save of the counterexample session: in memory content v1. -/
def c7fs1 : FS :=
  ku_save { path := "proj.kicad_sch", sch := "v1" } true
    (fsWrite (fun _ => none) "proj.kicad_sch" "v0")

/-- The second save of the counterexample session: in memory content v2. -/
def c7fs2 : FS :=
  ku_save { path := "proj.kicad_sch", sch := "v2" } true c7fs1

/-- Counterexample for claim C7.  In a session that saves twice with backup
enabled over a file previously holding v0, the claim requires a first backup
at proj.bak1.kicad_sch holding v0 and a second at proj.bak2.kicad_sch holding
v1, no backup being overwritten.  The code instead writes both backups to the
single path proj.bak.kicad_sch: no .bak1 or .bak2 file exists, the first
backup held v1 (the in memory content, not the previous on disk v0) and the
second save overwrote it with v2. -/
theorem c7_backup_counterexample :
    c7fs2 "proj.bak1.kicad_sch" = none ∧
    c7fs2 "proj.bak2.kicad_sch" = none ∧
    c7fs1 "proj.bak.kicad_sch" = some "v1" ∧
    c7fs2 "proj.bak.kicad_sch" = some "v2" := by
  refine ⟨rfl, rfl, rfl, rfl⟩

/-- Claim C7 as amended: with backup enabled, kicad_utils save writes the
current in memory schematic, not the previous on disk content, to the one
sibling path with the extension replaced by .bak.kicad_sch; that path carries
no counter and is a function of the document path alone, so every save of a
session backs up to the same path and a later backup overwrites an earlier
one.  Separately, schematic_editor backup, which save never calls, increments
the session counter and writes the current in memory schematic to the sibling
.bak followed by the counter value and .kicad_sch, leaving every other path
unchanged. -/
theorem c7_backup_amended (ed ed2 : KUEditor) (fs fs2 : FS) (see : SEEditor)
    (hk : ku_backup_path ed.path ≠ ed.path) (hp : ed2.path = ed.path) :
    ku_save ed true fs (ku_backup_path ed.path) = some ed.sch ∧
    ku_backup_path ed2.path = ku_backup_path ed.path ∧
    ku_save ed2 true fs2 (ku_backup_path ed.path) = some ed2.sch ∧
    (se_backup see fs).1.backup_counter = see.backup_counter + 1 ∧
    (se_backup see fs).2 (se_backup_path see.path (see.backup_counter + 1)) = some see.sch ∧
    (∀ q, q ≠ se_backup_path see.path (see.backup_counter + 1) →
      (se_backup see fs).2 q = fs q) := by
  refine ⟨?_, by rw [hp], ?_, rfl, ?_, ?_⟩
  · show fsWrite (fsWrite fs (ku_backup_path ed.path) ed.sch) ed.path ed.sch
        (ku_backup_path ed.path) = some ed.sch
    rw [fsWrite, if_neg hk]
    rw [fsWrite, if_pos rfl]
  · show fsWrite (fsWrite fs2 (ku_backup_path ed2.path) ed2.sch) ed2.path ed2.sch
        (ku_backup_path ed.path) = some ed2.sch
    rw [hp]
    have hk2 : ku_backup_path ed.path ≠ ed.path := hk
    rw [fsWrite, if_neg hk2]
    rw [fsWrite, if_pos rfl]
  · show fsWrite fs (se_backup_path see.path (see.backup_counter + 1)) see.sch
        (se_backup_path see.path (see.backup_counter + 1)) = some see.sch
    rw [fsWrite, if_pos rfl]
  · intro q hq
    show fsWrite fs (se_backup_path see.path (see.backup_counter + 1)) see.sch q = fs q
    rw [fsWrite, if_neg hq]

/-- Witness for claim C7: the amended statement applied to the concrete
session of the counterexample, whose backup path differs from its document
path. -/
theorem c7_backup_amended_witness :
    ku_backup_path "proj.kicad_sch" ≠ "proj.kicad_sch" ∧
    ku_save { path := "proj.kicad_sch", sch := "v1" } true
        (fsWrite (fun _ => none) "proj.kicad_sch" "v0")
        (ku_backup_path "proj.kicad_sch") = some "v1" :=
  ⟨by decide,
   (c7_backup_amended { path := "proj.kicad_sch", sch := "v1" }
      { path := "proj.kicad_sch", sch := "v2" }
      (fsWrite (fun _ => none) "proj.kicad_sch" "v0") c7fs1
      { path := "proj.kicad_sch", sch := "v1", backup_counter := 0 }
      (by decide) rfl).1⟩

/-- Counterexample for claim C8.  The claim requires every save to write the
serialized content to a temporary path and rename it onto the target.  On a
concrete session both save implementations emit a single direct serializer
call on the target path: the trace holds no temporary path write and no
rename, so a serializer failure partway writes the target path directly. -/
theorem c8_atomic_counterexample :
    se_save_trace { path := "proj.kicad_sch", sch := "v1", backup_counter := 0 } =
      [FileOp.serializeTo "proj.kicad_sch"] ∧
    (se_save_trace { path := "proj.kicad_sch", sch := "v1", backup_counter := 0 }).all
      (fun op => !op.isRename && !op.isTempWrite) = true ∧
    ku_save_trace { path := "proj.kicad_sch", sch := "v1" } true =
      [FileOp.serializeTo "proj.bak.kicad_sch", FileOp.serializeTo "proj.kicad_sch"] ∧
    (ku_save_trace { path := "proj.kicad_sch", sch := "v1" } true).all
      (fun op => !op.isRename && !op.isTempWrite) = true := by
  refine ⟨rfl, rfl, rfl, rfl⟩

/-- Claim C8 as amended: save is not made atomic by the repository code.  Both
save implementations call the external serializer directly on their final
target paths, with no temporary path write and no rename in the trace; after
a completed save the document path holds the in memory content and no path
other than the document path and, for kicad_utils with backup enabled, the
backup path is touched. -/
theorem c8_save_amended (ed : KUEditor) (see : SEEditor) (b : Bool) (fs fs2 : FS) :
    (ku_save_trace ed b).all (fun op => !op.isRename && !op.isTempWrite) = true ∧
    (se_save_trace see).all (fun op => !op.isRename && !op.isTempWrite) = true ∧
    ku_save ed b fs ed.path = some ed.sch ∧
    se_save see fs2 see.path = some see.sch ∧
    (∀ q, q ≠ ed.path → q ≠ ku_backup_path ed.path → ku_save ed b fs q = fs q) ∧
    (∀ q, q ≠ see.path → se_save see fs2 q = fs2 q) := by
  refine ⟨?_, rfl, ?_, ?_, ?_, ?_⟩
  · cases b <;> rfl
  · show fsWrite (if b then fsWrite fs (ku_backup_path ed.path) ed.sch else fs)
        ed.path ed.sch ed.path = some ed.sch
    rw [fsWrite, if_pos rfl]
  · show fsWrite fs2 see.path see.sch see.path = some see.sch
    rw [fsWrite, if_pos rfl]
  · intro q hq hqb
    show fsWrite (if b then fsWrite fs (ku_backup_path ed.path) ed.sch else fs)
        ed.path ed.sch q = fs q
    rw [fsWrite, if_neg hq]
    cases b
    · rfl
    · show fsWrite fs (ku_backup_path ed.path) ed.sch q = fs q
      rw [fsWrite, if_neg hqb]
  · intro q hq
    show fsWrite fs2 see.path see.sch q = fs2 q
    rw [fsWrite, if_neg hq]

/-- Witness for claim C8: the amended frame property applied to the concrete
session, at a path distinct from both the document and backup paths. -/
theorem c8_save_amended_witness :
    "other.txt" ≠ "proj.kicad_sch" ∧
    "other.txt" ≠ ku_backup_path "proj.kicad_sch" ∧
    ku_save { path := "proj.kicad_sch", sch := "v1" } true
        (fsWrite (fun _ => none) "proj.kicad_sch" "v0") "other.txt" =
      fsWrite (fun _ => none) "proj.kicad_sch" "v0" "other.txt" :=
  ⟨by decide, by decide,
   (c8_save_amended { path := "proj.kicad_sch", sch := "v1" }
      { path := "proj.kicad_sch", sch := "v1", backup_counter := 0 } true
      (fsWrite (fun _ => none) "proj.kicad_sch" "v0")
      (fun _ => none)).2.2.2.2.1 "other.txt" (by decide) (by decide)⟩

/-- The failure kind of schematic_editor connect_pins: the ValueError Python
raises when unpacking the dot split of an endpoint into exactly two names
fails. -/
inductive PyError where
  | valueError
deriving DecidableEq, Repr

/-- Embeds schematic_editor SchematicEditor.connect_pins: each endpoint string
is split on dots and unpacked into a reference and a pin name, which raises
unless the split has exactly two parts; past the unpack the method only
prints, so a successful call leaves the document unchanged as well. -/
def connect_pins (sch : Schematic) (pin1 pin2 : String) :
    Schematic × Option PyError :=
  if (splitOnDot pin1.data).length = 2 ∧ (splitOnDot pin2.data).length = 2 then
    (sch, none)
  else (sch, some PyError.valueError)

/-- Runs a sequence of connect_pins calls, stopping at the first raised
error, as straight line Python statements do. -/
def run_connects (sch : Schematic) : List (String × String) → Schematic × Option PyError
  | [] => (sch, none)
  | c :: rest =>
    match connect_pins sch c.1 c.2 with
    | (s1, none) => run_connects s1 rest
    | (s1, some e) => (s1, some e)

/-- Embeds schematic_editor SchematicEditor.wire_stepper_driver: the sequence
of connect_pins calls the method performs, in source order. -/
def wire_stepper_driver (sch : Schematic)
    (driver_ref step_pin dir_pin enable_pin : String) : Schematic × Option PyError :=
  run_connects sch
    [ (driver_ref ++ ".VDD", "+3V3"),
      (driver_ref ++ ".VMOT", "StepperPower1.1"),
      (driver_ref ++ ".GND", "GND"),
      (driver_ref ++ ".STEP", step_pin),
      (driver_ref ++ ".DIR", dir_pin),
      (driver_ref ++ ".~ENABLE", enable_pin),
      (driver_ref ++ ".~RESET", "+3V3"),
      (driver_ref ++ ".~SLEEP", "+3V3") ]

/-- Claim C9: for every driver reference and pin arguments,
wire_stepper_driver raises the unpack ValueError and no wire, net or symbol
change is made: its very first connect_pins call uses the endpoint +3V3,
whose dot split has one part, so the two name unpack fails before anything
touches the document, and the document comes back unchanged. -/
theorem c9_wire_stepper_driver_raises (sch : Schematic)
    (driver_ref step_pin dir_pin enable_pin : String) :
    wire_stepper_driver sch driver_ref step_pin dir_pin enable_pin =
      (sch, some PyError.valueError) := by
  have h3v3 : (splitOnDot ("+3V3" : String).data).length = 1 := rfl
  have hfirst : connect_pins sch (driver_ref ++ ".VDD") "+3V3" =
      (sch, some PyError.valueError) := by
    rw [connect_pins, if_neg]
    rintro ⟨-, h2⟩
    rw [h3v3] at h2
    exact absurd h2 (by decide)
  rw [wire_stepper_driver, run_connects]
  rw [hfirst]
